import Mathlib

/-
Shallow embedding of `src/websockets/http.py` (HTTP parsing utilities for the
WebSocket handshake).

Modelling conventions:
* A byte string is a `List Char`; the HTTP content relevant here is ASCII, so
  one character stands for one byte (`bytes.decode()` is the identity on it).
* The byte stream is the list of results that successive `stream.readline()`
  calls return; reading past the end of the list models the stream returning
  the empty result `b''` at end of input.
* Python `ValueError`s are the constructors of `Err`; fallible functions
  return `Except Err`.
* `read_message` delegates header parsing to
  `email.parser.BytesHeaderParser().parse`, so the relevant slice of the
  CPython `email.feedparser` / `email.message` machinery (compat32 policy,
  `headersonly=True`) is embedded as well: the universal-newline
  `TextIOWrapper` translation that `BytesParser.parse` applies to the byte
  stream (CRLF and lone CR become LF), line cracking, the header-line
  regular expression, `_parse_headers` with continuation / unix-from /
  defect handling, `header_source_parse`, and payload collection.
-/

set_option maxRecDepth 8000

namespace WSHttp

abbrev Str := List Char

/-- Byte-string literal helper: the character list of a Lean string. -/
def str (s : String) : Str := s.data

/-- `MAX_HEADERS = 256` from the source. -/
def MAX_HEADERS : Nat := 256

/-- `MAX_LINE = 4096` from the source. -/
def MAX_LINE : Nat := 4096

/-- The two-byte line terminator `b'\r\n'`. -/
def crlf : Str := ['\r', '\n']

/-- A single line feed, the terminator left after universal-newline
translation. -/
def lf : Str := ['\n']

/-- The `ValueError`s the source can raise, one constructor per message/site. -/
inductive Err where
  /-- `ValueError("Line too long")` in `read_line`. -/
  | lineTooLong
  /-- `ValueError("Line without CRLF")` in `read_line`. -/
  | missingTerminator
  /-- `ValueError("Too many headers")` in `read_message`. -/
  | tooManyHeaders
  /-- `ValueError("Unsupported method")` in `read_request`. -/
  | unsupportedMethod
  /-- `ValueError("Unsupported HTTP version")` in `read_request`/`read_response`. -/
  | unsupportedVersion
  /-- `ValueError` raised by `int(status)` in `read_response`. -/
  | invalidStatus
  /-- `ValueError` raised by unpacking `split(None, 2)` into three variables
  when it produced fewer than three fields. -/
  | notEnoughValues
deriving DecidableEq, Repr

/-- Defects recorded (not raised) by the email parser, compat32 policy. -/
inductive Defect where
  | missingHeaderBodySeparator
  | firstHeaderLineIsContinuation
  | misplacedEnvelopeHeader
  | invalidHeaderMissingName
  | multipartInvariantViolation
deriving DecidableEq, Repr

/-- The observable content of the `email.message.Message` object returned by
`BytesHeaderParser().parse`: the unix-from line if any, the ordered header
name/value pairs, the recorded defects, and the payload. -/
structure Msg where
  unixfrom : Option Str
  headers : List (Str × Str)
  defects : List Defect
  payload : Str
deriving DecidableEq, Repr

/-- `line.endswith(b'\r\n')`. -/
def endsCRLF (l : Str) : Bool :=
  match l.reverse with
  | '\n' :: '\r' :: _ => true
  | _ => false

/-- `read_line(stream)`: one `stream.readline()` result, checked against
`MAX_LINE` first and the CRLF terminator second, exactly as in the source. -/
def read_line (s : List Str) : Except Err (Str × List Str) :=
  let line := s.headD []
  if line.length > MAX_LINE then .error .lineTooLong
  else if endsCRLF line then .ok (line, s.tail)
  else .error .missingTerminator

/-- The `for num in range(MAX_HEADERS)` loop of `read_message`: each iteration
reads a line, writes it to the buffer (terminator line included), and breaks
on `b'\r\n'`; fuel exhaustion is the `for`/`else` raise. -/
def read_headers_loop : Nat → List Str → List Str → Except Err (List Str × List Str)
  | 0, _, _ => .error .tooManyHeaders
  | n + 1, acc, s =>
    match read_line s with
    | .error e => .error e
    | .ok (line, s') =>
      if line = crlf then .ok (acc ++ [line], s')
      else read_headers_loop n (acc ++ [line]) s'

/-! The email parser slice: `BytesHeaderParser().parse` on the accumulated
header bytes.  `BufferedSubFile` cracks the pushed text into lines, keeping
the line separators (`StringIO(newline='')` universal-newline recognition:
`\r\n`, lone `\r`, lone `\n`); a trailing unterminated chunk is also yielded
as a line when the parser is closed. -/

/-- Line cracking: `acc` holds the (reversed) current partial line. -/
def splitlinesAux : Str → Str → List Str
  | [], acc => if acc.isEmpty then [] else [acc.reverse]
  | c :: rest, acc =>
    if c = '\r' then
      match rest with
      | '\n' :: rest2 => (acc.reverse ++ ['\r', '\n']) :: splitlinesAux rest2 []
      | r => (acc.reverse ++ ['\r']) :: splitlinesAux r []
    else if c = '\n' then (acc.reverse ++ ['\n']) :: splitlinesAux rest []
    else splitlinesAux rest (c :: acc)

def splitlines (l : Str) : List Str := splitlinesAux l []

/-- The universal-newline translation performed by
`TextIOWrapper(fp, encoding='ascii', errors='surrogateescape')` (with the
default `newline=None`) in `BytesParser.parse`: every `\r\n` pair and every
lone `\r` in the input becomes a single `\n` before the feed parser sees
the text. -/
def translateNL : Str → Str
  | [] => []
  | c :: rest =>
    if c = '\r' then
      match rest with
      | '\n' :: rest2 => '\n' :: translateNL rest2
      | r => '\n' :: translateNL r
    else c :: translateNL rest

/-- Concatenation of a list of byte strings (`b''.join` / `io` accumulation). -/
def catLines : List Str → Str
  | [] => []
  | l :: ls => l ++ catLines ls

/-- Character class `[\041-\071\073-\176]` of the feedparser `headerRE`:
printable ASCII except colon. -/
def isFieldChar (c : Char) : Bool :=
  (0x21 ≤ c.toNat && c.toNat ≤ 0x39) || (0x3b ≤ c.toNat && c.toNat ≤ 0x7e)

/-- The `[\041-\071\073-\176]*:` alternative of `headerRE`, anchored at the
start of the line: a (possibly empty) run of field-name characters followed
by a colon. -/
def fieldPrefixColon : Str → Bool
  | [] => false
  | c :: rest => if c = ':' then true else if isFieldChar c then fieldPrefixColon rest else false

/-- The `From ` alternative of `headerRE` (and `line.startswith('From ')`). -/
def startsWithFrom (l : Str) : Bool :=
  match l with
  | a :: b :: c :: d :: e :: _ => a = 'F' && b = 'r' && c = 'o' && d = 'm' && e = ' '
  | _ => false

/-- `headerRE.match(line)`: `^(From |[\041-\071\073-\176]*:|[\t ])`. -/
def headerREMatch (l : Str) : Bool :=
  startsWithFrom l || fieldPrefixColon l ||
    (match l with
     | c :: _ => c = ' ' || c = '\t'
     | [] => false)

/-- `NLCRE.match(line)` for `NLCRE = \r\n|\r|\n`: the line starts with a
newline character (for cracked lines this means it is exactly a newline). -/
def startsWithNL : Str → Bool
  | '\r' :: _ => true
  | '\n' :: _ => true
  | _ => false

/-- The header-collection loop of `FeedParser._parsegen`: gather the lines
matching `headerRE`; a line starting with a newline is the header/body
separator and is discarded; any other line is a `MissingHeaderBodySeparator`
defect and is pushed back to become the first body line. Returns
`(header lines, defects, body lines)`. -/
def collectHeaders : List Str → List Str × List Defect × List Str
  | [] => ([], [], [])
  | line :: rest =>
    if headerREMatch line then
      let r := collectHeaders rest
      (line :: r.1, r.2.1, r.2.2)
    else if startsWithNL line then ([], [], rest)
    else ([], [.missingHeaderBodySeparator], line :: rest)

/-- `value.lstrip(' \t')`. -/
def pyLstripST (l : Str) : Str := l.dropWhile (fun c => c = ' ' || c = '\t')

/-- `value.rstrip('\r\n')`: remove CR and LF characters from the right end. -/
def pyRstripCRLF (l : Str) : Str :=
  (l.reverse.dropWhile (fun c => c = '\r' || c = '\n')).reverse

/-- `NLCRE_eol = (\r\n|\r|\n)\Z` stripping used by `set_unixfrom`. -/
def stripEolNL (l : Str) : Str :=
  match l.reverse with
  | '\n' :: '\r' :: r => r.reverse
  | '\n' :: r => r.reverse
  | '\r' :: r => r.reverse
  | _ => l

/-- `line.find(':')`: index of the first colon, if any. -/
def findColon : Str → Option Nat
  | [] => none
  | c :: rest => if c = ':' then some 0 else (findColon rest).map (· + 1)

/-- compat32 `header_source_parse(sourcelines)`: split the first line on the
first colon; the value is the remainder left-stripped of spaces/tabs, joined
with the continuation lines verbatim, and right-stripped of CR/LF. The first
line always contains a colon when this is reached from `_parse_headers`. -/
def header_source_parse (sl : List Str) : Str × Str :=
  match sl with
  | [] => ([], [])
  | first :: conts =>
    match findColon first with
    | none => (first, [])
    | some i =>
      let name := first.take i
      let value := pyLstripST (first.drop (i + 1)) ++ catLines conts
      (name, pyRstripCRLF value)

/-- The mutable state of `FeedParser._parse_headers`: the pending header name
(`''` = none, here `[]`), its accumulated source lines, and the message
fields built so far. `unread` holds a line pushed back onto the input by
`unreadline` (the unix-from-at-last-line case). -/
structure PHState where
  lastheader : Str
  lastvalue : List Str
  headers : List (Str × Str)
  defects : List Defect
  unixfrom : Option Str
  unread : List Str
deriving DecidableEq, Repr

/-- Emit the pending header via `header_source_parse`. -/
def flushPH (st : PHState) : PHState :=
  { st with headers := st.headers ++ [header_source_parse st.lastvalue],
            lastheader := [], lastvalue := [] }

/-- The loop body of `_parse_headers(lines)`; `total` is `len(lines)` and
`lineno` the current index, used by the unix-from ("From ") handling. -/
def parseHeadersGo (total : Nat) : List Str → Nat → PHState → PHState
  | [], _, st => if st.lastheader.isEmpty then st else flushPH st
  | line :: rest, lineno, st =>
    if (match line with | c :: _ => c = ' ' || c = '\t' | [] => false) then
      -- continuation line (`line[0] in ' \t'`)
      if st.lastheader.isEmpty then
        parseHeadersGo total rest (lineno + 1)
          { st with defects := st.defects ++ [.firstHeaderLineIsContinuation] }
      else
        parseHeadersGo total rest (lineno + 1)
          { st with lastvalue := st.lastvalue ++ [line] }
    else
      let st1 := if st.lastheader.isEmpty then st else flushPH st
      if startsWithFrom line then
        if lineno = 0 then
          parseHeadersGo total rest (lineno + 1) { st1 with unixfrom := some (stripEolNL line) }
        else if lineno = total - 1 then
          -- looks like a unix-from at the end: push the line back and stop
          { st1 with unread := [line] }
        else
          parseHeadersGo total rest (lineno + 1)
            { st1 with defects := st1.defects ++ [.misplacedEnvelopeHeader] }
      else
        match findColon line with
        | some 0 =>
          parseHeadersGo total rest (lineno + 1)
            { st1 with defects := st1.defects ++ [.invalidHeaderMissingName] }
        | some i =>
          parseHeadersGo total rest (lineno + 1)
            { st1 with lastheader := line.take i, lastvalue := [line] }
        | none =>
          -- unreachable: every line fed here matches headerRE, so it carries
          -- a colon unless it is a continuation or a "From " line
          parseHeadersGo total rest (lineno + 1) st1

def parse_headers (lines : List Str) : PHState :=
  parseHeadersGo lines.length lines 0 ⟨[], [], [], [], none, []⟩

/-- Whitespace for `str.split(None)` / `str.strip()` (`Py_UNICODE_ISSPACE`). -/
def pyIsSpace (c : Char) : Bool :=
  let n := c.toNat
  (0x09 ≤ n && n ≤ 0x0d) || n = 0x1c || n = 0x1d || n = 0x1e || n = 0x1f ||
    n = 0x20 || n = 0x85 || n = 0xa0 || n = 0x1680 ||
    (0x2000 ≤ n && n ≤ 0x200a) || n = 0x2028 || n = 0x2029 || n = 0x202f ||
    n = 0x205f || n = 0x3000

/-- `s.strip()` with the default whitespace set. -/
def pyStripWS (l : Str) : Str :=
  ((l.dropWhile pyIsSpace).reverse.dropWhile pyIsSpace).reverse

/-- `BytesHeaderParser().parse` on a byte block, `headersonly=True`:
decode through the universal-newline `TextIOWrapper` (CRLF and lone CR
become LF), crack into lines, collect the header section, run
`_parse_headers`, and join the remaining lines (any pushed-back line first)
into the payload. The final multipart-invariant check of `FeedParser.close`
is skipped for headers-only parsing (`and not self._headersonly`), so it
never fires here and the `multipartInvariantViolation` constructor stays
unused. -/
def parse_email (block : Str) : Msg :=
  let lines := splitlines (translateNL block)
  let c := collectHeaders lines
  let ph := parse_headers c.1
  { unixfrom := ph.unixfrom
    headers := ph.headers
    defects := c.2.1 ++ ph.defects
    payload := catLines (ph.unread ++ c.2.2) }

/-- `read_message(stream)`: start line, then the bounded header-line loop,
then the email parser on the accumulated bytes. Returns the raw start line,
the parsed message, and the rest of the stream. -/
def read_message (s : List Str) : Except Err ((Str × Msg) × List Str) :=
  match read_line s with
  | .error e => .error e
  | .ok (start_line, s1) =>
    match read_headers_loop MAX_HEADERS [] s1 with
    | .error e => .error e
    | .ok (acc, s2) => .ok ((start_line, parse_email (catLines acc)), s2)

/-- `s.split(None, 2)`: whitespace split with at most 2 splits; once the
split budget is exhausted, remaining leading whitespace is skipped and the
rest of the string is kept verbatim as the final field. -/
def pysplit2 (s : Str) : List Str :=
  let r1 := s.dropWhile pyIsSpace
  if r1.isEmpty then []
  else
    let f1 := r1.takeWhile (fun c => !pyIsSpace c)
    let r2 := (r1.dropWhile (fun c => !pyIsSpace c)).dropWhile pyIsSpace
    if r2.isEmpty then [f1]
    else
      let f2 := r2.takeWhile (fun c => !pyIsSpace c)
      let r3 := (r2.dropWhile (fun c => !pyIsSpace c)).dropWhile pyIsSpace
      if r3.isEmpty then [f1, f2] else [f1, f2, r3]

def digitVal (c : Char) : Option Nat :=
  if '0' ≤ c && c ≤ '9' then some (c.toNat - '0'.toNat) else none

def digitsToNatAux : Str → Nat → Option Nat
  | [], acc => some acc
  | c :: rest, acc =>
    match digitVal c with
    | some d => digitsToNatAux rest (acc * 10 + d)
    | none => none

def digitsToNat (l : Str) : Option Nat :=
  if l.isEmpty then none else digitsToNatAux l 0

/-- `int(s)` on a decimal string literal: surrounding whitespace stripped,
one optional sign, then a nonempty run of ASCII digits; `none` models the
`ValueError`. -/
def pyInt (s : Str) : Option Int :=
  match pyStripWS s with
  | '+' :: ds => (digitsToNat ds).map Int.ofNat
  | '-' :: ds => (digitsToNat ds).map (fun n => -(n : Int))
  | ds => (digitsToNat ds).map Int.ofNat

/-- `line[:-2]`. -/
def stripLast2 (l : Str) : Str := l.take (l.length - 2)

/-- `read_request(stream)`: read a message, split the start line (terminator
stripped) into at most three whitespace-delimited fields, validate method and
version, return `(uri, headers)` and the rest of the stream. -/
def read_request (s : List Str) : Except Err ((Str × Msg) × List Str) :=
  match read_message s with
  | .error e => .error e
  | .ok ((request_line, headers), s1) =>
    match pysplit2 (stripLast2 request_line) with
    | [method, uri, version] =>
      if method ≠ str "GET" then .error .unsupportedMethod
      else if version ≠ str "HTTP/1.1" then .error .unsupportedVersion
      else .ok ((uri, headers), s1)
    | _ => .error .notEnoughValues

/-- `read_response(stream)`: like `read_request`, but the start line splits
into version, status and reason (the third field absorbing the remainder),
and the status is converted with `int`. -/
def read_response (s : List Str) : Except Err ((Int × Msg) × List Str) :=
  match read_message s with
  | .error e => .error e
  | .ok ((status_line, headers), s1) =>
    match pysplit2 (stripLast2 status_line) with
    | [version, status, _reason] =>
      if version ≠ str "HTTP/1.1" then .error .unsupportedVersion
      else
        match pyInt status with
        | some k => .ok ((k, headers), s1)
        | none => .error .invalidStatus
    | _ => .error .notEnoughValues

/-! Derived notions used to state the verified properties. -/

deriving instance DecidableEq for Except

/-- A raw header line `name ++ ":" ++ rest-of-line ++ CRLF`, as a function of
the name and of everything after the colon. -/
def mkRawLine (p : Str × Str) : Str := p.1 ++ ':' :: (p.2 ++ crlf)

/-- The same header line as the feed parser sees it, after the
universal-newline translation turned the CRLF terminator into a lone LF. -/
def mkLFLine (p : Str × Str) : Str := p.1 ++ ':' :: (p.2 ++ lf)

/-- A conventional header line `name ++ ": " ++ value ++ CRLF`. -/
def mkHeaderLine (p : Str × Str) : Str := p.1 ++ ':' :: ' ' :: (p.2 ++ crlf)

/-- What the email parser makes of a raw header line built by `mkRawLine`:
the name verbatim, the value left-stripped of spaces and tabs (the trailing
CRLF goes away, but trailing spaces and tabs survive). -/
def parsedPair (p : Str × Str) : Str × Str := (p.1, pyLstripST p.2)

/-- Whether the first character is a space or a tab. -/
def headIsST : Str → Bool
  | c :: _ => c = ' ' || c = '\t'
  | [] => false

/-- Whether the first character is Python whitespace. -/
def headIsSpace : Str → Bool
  | c :: _ => pyIsSpace c
  | [] => false

/-- The start line of a well-formed GET request. -/
def requestLine (target : Str) : Str := str "GET " ++ (target ++ str " HTTP/1.1\r\n")

/-- A well-formed request stream: start line, conventional header lines, and
the blank terminator line. -/
def mkRequestStream (target : Str) (hs : List (Str × Str)) : List Str :=
  requestLine target :: (hs.map mkHeaderLine ++ [crlf])

/-- The status line of an HTTP/1.1 response. -/
def responseLine (status reason : Str) : Str :=
  str "HTTP/1.1 " ++ (status ++ ' ' :: (reason ++ crlf))

/-- A well-formed response stream. -/
def mkResponseStream (status reason : Str) (hs : List (Str × Str)) : List Str :=
  responseLine status reason :: (hs.map mkHeaderLine ++ [crlf])

/-! General list helpers. -/

theorem takeWhile_append_of_all {p : Char → Bool} :
    ∀ (l m : Str), (∀ c ∈ l, p c = true) → (l ++ m).takeWhile p = l ++ m.takeWhile p
  | [], _, _ => by simp
  | c :: t, m, h => by
    have hc : p c = true := h c (by simp)
    simp only [List.cons_append, List.takeWhile_cons, hc, if_true]
    rw [takeWhile_append_of_all t m (fun x hx => h x (by simp [hx]))]

theorem dropWhile_append_of_all {p : Char → Bool} :
    ∀ (l m : Str), (∀ c ∈ l, p c = true) → (l ++ m).dropWhile p = m.dropWhile p
  | [], _, _ => by simp
  | c :: t, m, h => by
    have hc : p c = true := h c (by simp)
    simp only [List.cons_append, List.dropWhile_cons, hc, if_true]
    exact dropWhile_append_of_all t m (fun x hx => h x (by simp [hx]))

/-! Facts about `read_line`. -/

theorem endsCRLF_append (x : Str) : endsCRLF (x ++ crlf) = true := by
  simp [endsCRLF, crlf, List.reverse_append]

theorem read_line_ok (l : Str) (s : List Str) (h1 : l.length ≤ MAX_LINE)
    (h2 : endsCRLF l = true) : read_line (l :: s) = .ok (l, s) := by
  simp [read_line, Nat.not_lt.mpr h1, h2]

theorem read_line_missing (l : Str) (s : List Str) (h1 : l.length ≤ MAX_LINE)
    (h2 : endsCRLF l = false) : read_line (l :: s) = .error .missingTerminator := by
  simp [read_line, Nat.not_lt.mpr h1, h2]

theorem read_line_tooLong (l : Str) (s : List Str) (h1 : MAX_LINE < l.length) :
    read_line (l :: s) = .error .lineTooLong := by
  simp [read_line, h1]

/-! Facts about the header-line loop. -/

theorem read_headers_loop_ok :
    ∀ (lines : List Str) (n : Nat) (acc rest : List Str),
      lines.length < n →
      (∀ l ∈ lines, l.length ≤ MAX_LINE ∧ endsCRLF l = true ∧ l ≠ crlf) →
      read_headers_loop n acc (lines ++ crlf :: rest) = .ok (acc ++ lines ++ [crlf], rest)
  | [], n, acc, rest, hn, _ => by
    match n, hn with
    | m + 1, _ =>
      simp [read_headers_loop, read_line_ok crlf rest (by decide) (by decide)]
  | l :: t, n, acc, rest, hn, hall => by
    match n, hn with
    | m + 1, hn =>
      have h := hall l (by simp)
      have hrec := read_headers_loop_ok t m (acc ++ [l]) rest (by simpa using hn)
        (fun x hx => hall x (by simp [hx]))
      simp only [List.cons_append, read_headers_loop, read_line_ok l _ h.1 h.2.1,
        if_neg h.2.2]
      rw [hrec]
      simp

theorem read_headers_loop_exhaust :
    ∀ (lines : List Str) (acc s : List Str),
      (∀ l ∈ lines, l.length ≤ MAX_LINE ∧ endsCRLF l = true ∧ l ≠ crlf) →
      read_headers_loop lines.length acc (lines ++ s) = .error .tooManyHeaders
  | [], _, _, _ => rfl
  | l :: t, acc, s, hall => by
    have h := hall l (by simp)
    have hrec := read_headers_loop_exhaust t (acc ++ [l]) s
      (fun x hx => hall x (by simp [hx]))
    simp only [List.cons_append, List.length_cons, read_headers_loop,
      read_line_ok l _ h.1 h.2.1, if_neg h.2.2]
    exact hrec

/-! Facts about line cracking. -/

theorem catLines_append :
    ∀ (a b : List Str), catLines (a ++ b) = catLines a ++ catLines b
  | [], _ => by simp [catLines]
  | l :: t, b => by
    simp only [List.cons_append, catLines, List.append_eq,
      catLines_append t b, List.append_assoc]

theorem translateNL_line :
    ∀ (body rest : Str), (∀ c ∈ body, c ≠ '\r' ∧ c ≠ '\n') →
      translateNL ((body ++ crlf) ++ rest) = (body ++ lf) ++ translateNL rest
  | [], rest, _ => by
    rw [List.nil_append, show crlf ++ rest = '\r' :: '\n' :: rest by rfl,
      translateNL.eq_def]
    simp [lf]
  | c :: t, rest, h => by
    have hc := h c (by simp)
    rw [List.cons_append, List.cons_append, translateNL.eq_def]
    simp only [hc.1, if_false]
    rw [show translateNL ((t ++ crlf) ++ rest) = (t ++ lf) ++ translateNL rest
      from translateNL_line t rest (fun x hx => h x (by simp [hx]))]
    simp

theorem splitlinesAux_line :
    ∀ (body : Str) (rest acc : Str), (∀ c ∈ body, c ≠ '\r' ∧ c ≠ '\n') →
      splitlinesAux (body ++ '\n' :: rest) acc =
        (acc.reverse ++ (body ++ lf)) :: splitlinesAux rest []
  | [], rest, acc, _ => by
    rw [List.nil_append, splitlinesAux.eq_def]
    simp [lf]
  | c :: t, rest, acc, h => by
    have hc := h c (by simp)
    rw [List.cons_append, splitlinesAux.eq_def]
    simp only [hc.1, hc.2, if_false]
    rw [splitlinesAux_line t rest (c :: acc) (fun x hx => h x (by simp [hx]))]
    simp

theorem splitlines_cat :
    ∀ (lines : List Str),
      (∀ l ∈ lines, ∃ body, l = body ++ lf ∧ ∀ c ∈ body, c ≠ '\r' ∧ c ≠ '\n') →
      splitlines (catLines lines) = lines
  | [], _ => rfl
  | l :: t, h => by
    obtain ⟨body, hl, hb⟩ := h l (by simp)
    subst hl
    show splitlinesAux ((body ++ lf) ++ catLines t) [] = _
    rw [show (body ++ lf) ++ catLines t = body ++ '\n' :: catLines t by
      simp [lf]]
    rw [splitlinesAux_line body (catLines t) [] hb]
    rw [show splitlinesAux (catLines t) [] = splitlines (catLines t) from rfl]
    rw [splitlines_cat t (fun x hx => h x (by simp [hx]))]
    simp

/-! Facts about the header-line grammar. -/

theorem isFieldChar_facts (c : Char) (h : isFieldChar c = true) :
    c ≠ ':' ∧ c ≠ '\r' ∧ c ≠ '\n' ∧ c ≠ ' ' ∧ c ≠ '\t' := by
  refine ⟨?_, ?_, ?_, ?_, ?_⟩ <;> rintro rfl <;> exact absurd h (by decide)

theorem fieldPrefixColon_mk :
    ∀ (n : Str), (∀ c ∈ n, isFieldChar c = true) → ∀ (w : Str),
      fieldPrefixColon (n ++ ':' :: w) = true
  | [], _, w => by simp [fieldPrefixColon]
  | c :: t, hn, w => by
    have h1 := (isFieldChar_facts c (hn c (by simp))).1
    simp only [List.cons_append, fieldPrefixColon, h1, if_false,
      hn c (by simp), if_true]
    exact fieldPrefixColon_mk t (fun x hx => hn x (by simp [hx])) w

theorem fieldPrefixColon_none :
    ∀ (l : Str), (∀ c ∈ l, c ≠ ':') → fieldPrefixColon l = false
  | [], _ => rfl
  | c :: t, h => by
    have h1 := h c (by simp)
    by_cases hf : isFieldChar c = true
    · simp only [fieldPrefixColon, h1, if_false, hf, if_true]
      exact fieldPrefixColon_none t (fun x hx => h x (by simp [hx]))
    · simp [fieldPrefixColon, h1, hf]

theorem startsWithFrom_mk (n w : Str) (hn0 : n ≠ [])
    (hn : ∀ c ∈ n, isFieldChar c = true) :
    startsWithFrom (n ++ ':' :: w) = false := by
  match n, hn0 with
  | [a], _ =>
    match w with
    | [] => rfl
    | [x] => rfl
    | [x, y] => rfl
    | x :: y :: z :: t => simp [startsWithFrom]
  | [a, b], _ =>
    match w with
    | [] => rfl
    | [x] => rfl
    | x :: y :: t => simp [startsWithFrom]
  | [a, b, c], _ =>
    match w with
    | [] => rfl
    | x :: t => simp [startsWithFrom]
  | [a, b, c, d], _ => simp [startsWithFrom]
  | a :: b :: c :: d :: e :: t, _ =>
    have he := (isFieldChar_facts e (hn e (by simp))).2.2.2.1
    simp [startsWithFrom, he]

theorem headerREMatch_mk (n w : Str) (hn : ∀ c ∈ n, isFieldChar c = true) :
    headerREMatch (n ++ ':' :: w) = true := by
  simp [headerREMatch, fieldPrefixColon_mk n hn w]

theorem startsWithNL_cons (c : Char) (t : Str) (h1 : c ≠ '\r') (h2 : c ≠ '\n') :
    startsWithNL (c :: t) = false := by
  rw [startsWithNL.eq_def]
  simp [h1, h2]

/-! Facts about the header-section collection loop. -/

theorem collectHeaders_cons_match (l : Str) (rest : List Str)
    (h : headerREMatch l = true) :
    collectHeaders (l :: rest) =
      (l :: (collectHeaders rest).1, (collectHeaders rest).2.1,
       (collectHeaders rest).2.2) := by
  simp [collectHeaders, h]

theorem collectHeaders_sep :
    ∀ (lines rest : List Str), (∀ l ∈ lines, headerREMatch l = true) →
      collectHeaders (lines ++ lf :: rest) = (lines, [], rest)
  | [], rest, _ => by
    have h1 : headerREMatch lf = false := by decide
    have h2 : startsWithNL lf = true := by decide
    simp [collectHeaders, h1, h2]
  | l :: t, rest, h => by
    rw [List.cons_append, collectHeaders_cons_match l _ (h l (by simp)),
      collectHeaders_sep t rest (fun x hx => h x (by simp [hx]))]

theorem collectHeaders_stop :
    ∀ (lines rest : List Str) (b : Str), (∀ l ∈ lines, headerREMatch l = true) →
      headerREMatch b = false → startsWithNL b = false →
      collectHeaders (lines ++ b :: rest) =
        (lines, [.missingHeaderBodySeparator], b :: rest)
  | [], rest, b, _, hb1, hb2 => by simp [collectHeaders, hb1, hb2]
  | l :: t, rest, b, h, hb1, hb2 => by
    rw [List.cons_append, collectHeaders_cons_match l _ (h l (by simp)),
      collectHeaders_stop t rest b (fun x hx => h x (by simp [hx])) hb1 hb2]

/-! Facts about value stripping and `header_source_parse`. -/

theorem pyLstripST_append_lf :
    ∀ (w : Str), pyLstripST (w ++ lf) = pyLstripST w ++ lf
  | [] => by decide
  | c :: t => by
    by_cases hc : (c = ' ' || c = '\t') = true
    · simp only [pyLstripST, List.cons_append, List.dropWhile_cons, hc, if_true]
      exact pyLstripST_append_lf t
    · simp [pyLstripST, List.dropWhile_cons, hc]

theorem pyLstripST_clean (x : Str) (h : ∀ c ∈ x, c ≠ '\r' ∧ c ≠ '\n') :
    ∀ c ∈ pyLstripST x, c ≠ '\r' ∧ c ≠ '\n' :=
  fun c hc => h c (List.Sublist.mem hc (List.dropWhile_sublist _))

theorem pyLstripST_noST (v : Str) (hv : headIsST v = false) : pyLstripST v = v := by
  match v with
  | [] => rfl
  | c :: t =>
    have : (c = ' ' || c = '\t') = false := hv
    simp [pyLstripST, List.dropWhile_cons, this]

theorem pyRstripCRLF_append_lf (x : Str) :
    pyRstripCRLF (x ++ lf) = pyRstripCRLF x := by
  have h1 : (('\n' : Char) = '\r' || ('\n' : Char) = '\n') = true := by decide
  simp [pyRstripCRLF, lf, List.reverse_append, List.dropWhile_cons, h1]

theorem pyRstripCRLF_of_clean (x : Str) (h : ∀ c ∈ x, c ≠ '\r' ∧ c ≠ '\n') :
    pyRstripCRLF x = x := by
  unfold pyRstripCRLF
  cases hx : x.reverse with
  | nil =>
    have : x = [] := by simpa using congrArg List.reverse hx
    simp [this]
  | cons c t =>
    have hc : c ∈ x := by
      rw [← List.mem_reverse, hx]; simp
    have hcc := h c hc
    rw [List.dropWhile_cons, if_neg (by simp [hcc.1, hcc.2]), ← hx,
      List.reverse_reverse]

theorem findColon_mk :
    ∀ (n : Str), (∀ c ∈ n, isFieldChar c = true) → ∀ (w : Str),
      findColon (n ++ ':' :: w) = some n.length
  | [], _, w => by simp [findColon]
  | c :: t, hn, w => by
    have hc := (isFieldChar_facts c (hn c (by simp))).1
    simp only [List.cons_append, findColon, hc, if_false, List.append_eq]
    rw [findColon_mk t (fun x hx => hn x (by simp [hx])) w]
    rfl

theorem header_source_parse_mk (p : Str × Str)
    (hn : ∀ c ∈ p.1, isFieldChar c = true)
    (hw : ∀ c ∈ p.2, c ≠ '\r' ∧ c ≠ '\n') :
    header_source_parse [mkLFLine p] = parsedPair p := by
  obtain ⟨n, w⟩ := p
  have hfc := findColon_mk n hn (w ++ lf)
  have htake : (n ++ ':' :: (w ++ lf)).take n.length = n := List.take_left n _
  have hdrop : (n ++ ':' :: (w ++ lf)).drop (n.length + 1) = w ++ lf := by
    rw [show n ++ ':' :: (w ++ lf) = (n ++ [':']) ++ (w ++ lf) by simp,
      show n.length + 1 = (n ++ [':']).length by simp]
    exact List.drop_left _ _
  show header_source_parse [n ++ ':' :: (w ++ lf)] = (n, pyLstripST w)
  simp only [header_source_parse, hfc, htake, hdrop, catLines, List.append_nil]
  rw [pyLstripST_append_lf, pyRstripCRLF_append_lf,
    pyRstripCRLF_of_clean _ (pyLstripST_clean w hw)]

/-! Facts about `_parse_headers` on well-formed header lines. -/

theorem parseHeadersGo_step (total : Nat) (rest : List Str) (lineno : Nat)
    (st : PHState) (p : Str × Str) (hp0 : p.1 ≠ [])
    (hpf : ∀ c ∈ p.1, isFieldChar c = true) :
    parseHeadersGo total (mkLFLine p :: rest) lineno st =
      parseHeadersGo total rest (lineno + 1)
        { (if st.lastheader.isEmpty then st else flushPH st) with
            lastheader := p.1, lastvalue := [mkLFLine p] } := by
  obtain ⟨pn, pv⟩ := p
  match pn, hp0 with
  | a :: n', _ =>
    have hfacts := isFieldChar_facts a (hpf a (by simp))
    have hml : mkLFLine (a :: n', pv) = a :: (n' ++ ':' :: (pv ++ lf)) := by
      simp [mkLFLine]
    have hcont : (a = ' ' || a = '\t') = false := by
      simp [hfacts.2.2.2.1, hfacts.2.2.2.2]
    have hfrom : startsWithFrom ((a :: n') ++ ':' :: (pv ++ lf)) = false :=
      startsWithFrom_mk (a :: n') (pv ++ lf) (by simp) hpf
    have hfc : findColon ((a :: n') ++ ':' :: (pv ++ lf)) =
        some (n'.length + 1) := by
      rw [findColon_mk (a :: n') hpf (pv ++ lf)]; rfl
    have htake : ((a :: n') ++ ':' :: (pv ++ lf)).take (n'.length + 1) =
        a :: n' := by
      rw [show n'.length + 1 = (a :: n').length from rfl]
      exact List.take_left _ _
    rw [hml]
    simp only [parseHeadersGo, hcont, Bool.false_eq_true, if_false,
      show a :: (n' ++ ':' :: (pv ++ lf)) = (a :: n') ++ ':' :: (pv ++ lf)
        from rfl,
      hfrom, hfc, htake]

theorem parseHeadersGo_pending :
    ∀ (hs : List (Str × Str)) (total lineno : Nat) (q : Str × Str)
      (hdrs : List (Str × Str)) (ds : List Defect) (uf : Option Str)
      (ur : List Str),
      (q.1 ≠ [] ∧ (∀ c ∈ q.1, isFieldChar c = true) ∧
        (∀ c ∈ q.2, c ≠ '\r' ∧ c ≠ '\n')) →
      (∀ p ∈ hs, p.1 ≠ [] ∧ (∀ c ∈ p.1, isFieldChar c = true) ∧
        (∀ c ∈ p.2, c ≠ '\r' ∧ c ≠ '\n')) →
      parseHeadersGo total (hs.map mkLFLine) lineno
          ⟨q.1, [mkLFLine q], hdrs, ds, uf, ur⟩ =
        ⟨[], [], hdrs ++ (q :: hs).map parsedPair, ds, uf, ur⟩
  | [], total, lineno, q, hdrs, ds, uf, ur, hq, _ => by
    have h1 : q.1.isEmpty = false := by
      cases hq1 : q.1 with
      | nil => exact absurd hq1 hq.1
      | cons a t => rfl
    simp only [List.map_nil, parseHeadersGo, h1, Bool.false_eq_true, if_false]
    simp [flushPH, header_source_parse_mk q hq.2.1 hq.2.2]
  | p :: t, total, lineno, q, hdrs, ds, uf, ur, hq, hall => by
    have hp := hall p (by simp)
    have h1 : q.1.isEmpty = false := by
      cases hq1 : q.1 with
      | nil => exact absurd hq1 hq.1
      | cons a t => rfl
    rw [List.map_cons, parseHeadersGo_step total _ lineno _ p hp.1 hp.2.1]
    simp only [h1, Bool.false_eq_true, if_false, flushPH,
      header_source_parse_mk q hq.2.1 hq.2.2]
    rw [parseHeadersGo_pending t total (lineno + 1) p (hdrs ++ [parsedPair q])
      ds uf ur hp (fun x hx => hall x (by simp [hx]))]
    simp

theorem parse_headers_good (hs : List (Str × Str))
    (hall : ∀ p ∈ hs, p.1 ≠ [] ∧ (∀ c ∈ p.1, isFieldChar c = true) ∧
      (∀ c ∈ p.2, c ≠ '\r' ∧ c ≠ '\n')) :
    parse_headers (hs.map mkLFLine) = ⟨[], [], hs.map parsedPair, [], none, []⟩ := by
  match hs, hall with
  | [], _ => rfl
  | q :: t, hall =>
    have hq := hall q (by simp)
    unfold parse_headers
    rw [List.map_cons, parseHeadersGo_step _ _ 0 _ q hq.1 hq.2.1]
    simp only [List.isEmpty_nil, if_true]
    rw [parseHeadersGo_pending t _ 1 q [] [] none [] hq
      (fun x hx => hall x (by simp [hx]))]
    simp

/-! `read_message` on a well-formed stream. -/

theorem mkRawLine_ne_crlf (p : Str × Str) : mkRawLine p ≠ crlf := by
  intro h
  have := congrArg List.length h
  simp [mkRawLine, crlf] at this
  omega

theorem mkRawLine_endsCRLF (p : Str × Str) : endsCRLF (mkRawLine p) = true := by
  rw [show mkRawLine p = (p.1 ++ ':' :: p.2) ++ crlf by simp [mkRawLine]]
  exact endsCRLF_append _

theorem mkRawLine_length (p : Str × Str) :
    (mkRawLine p).length = p.1.length + p.2.length + 3 := by
  simp [mkRawLine, crlf]
  omega

theorem translateNL_cat_mk :
    ∀ (hs : List (Str × Str)) (tail tailLF : Str),
      (∀ p ∈ hs, (∀ c ∈ p.1, isFieldChar c = true) ∧
        (∀ c ∈ p.2, c ≠ '\r' ∧ c ≠ '\n')) →
      translateNL tail = tailLF →
      translateNL (catLines (hs.map mkRawLine) ++ tail) =
        catLines (hs.map mkLFLine) ++ tailLF
  | [], tail, tailLF, _, ht => by simpa [catLines] using ht
  | p :: t, tail, tailLF, hall, ht => by
    have hp := hall p (by simp)
    have hbody : ∀ c ∈ p.1 ++ ':' :: p.2, c ≠ '\r' ∧ c ≠ '\n' := by
      intro c hc
      rcases List.mem_append.mp hc with hc | hc
      · have := isFieldChar_facts c (hp.1 c hc)
        exact ⟨this.2.1, this.2.2.1⟩
      · rcases List.mem_cons.mp hc with rfl | hc
        · exact ⟨by decide, by decide⟩
        · exact hp.2 c hc
    show translateNL ((mkRawLine p ++ catLines (t.map mkRawLine)) ++ tail) = _
    rw [List.append_assoc,
      show mkRawLine p = (p.1 ++ ':' :: p.2) ++ crlf by simp [mkRawLine],
      translateNL_line (p.1 ++ ':' :: p.2) _ hbody,
      translateNL_cat_mk t tail tailLF (fun x hx => hall x (by simp [hx])) ht]
    simp [catLines, mkLFLine]

theorem read_message_good (startLine : Str) (hs : List (Str × Str))
    (rest : List Str)
    (h0 : startLine.length ≤ MAX_LINE) (h1 : endsCRLF startLine = true)
    (hcount : hs.length ≤ 255)
    (hgood : ∀ p ∈ hs, p.1 ≠ [] ∧ (∀ c ∈ p.1, isFieldChar c = true) ∧
      (∀ c ∈ p.2, c ≠ '\r' ∧ c ≠ '\n') ∧
      p.1.length + p.2.length + 3 ≤ MAX_LINE) :
    read_message (startLine :: (hs.map mkRawLine ++ crlf :: rest)) =
      .ok ((startLine,
        { unixfrom := none, headers := hs.map parsedPair, defects := [],
          payload := [] }), rest) := by
  have hline : ∀ l ∈ hs.map mkRawLine,
      l.length ≤ MAX_LINE ∧ endsCRLF l = true ∧ l ≠ crlf := by
    intro l hl
    obtain ⟨p, hp, rfl⟩ := List.mem_map.mp hl
    refine ⟨?_, mkRawLine_endsCRLF p, mkRawLine_ne_crlf p⟩
    rw [mkRawLine_length]
    exact (hgood p hp).2.2.2
  have hlen : (hs.map mkRawLine).length < MAX_HEADERS := by
    simp only [List.length_map, MAX_HEADERS]
    omega
  have hcat : translateNL (catLines (hs.map mkRawLine ++ [crlf])) =
      catLines (hs.map mkLFLine ++ [lf]) := by
    rw [catLines_append, catLines_append]
    exact translateNL_cat_mk hs (catLines [crlf]) (catLines [lf])
      (fun p hp => ⟨(hgood p hp).2.1, (hgood p hp).2.2.1⟩) (by decide)
  have hdecomp : ∀ l ∈ hs.map mkLFLine ++ [lf],
      ∃ body, l = body ++ lf ∧ ∀ c ∈ body, c ≠ '\r' ∧ c ≠ '\n' := by
    intro l hl
    rcases List.mem_append.mp hl with hl | hl
    · obtain ⟨p, hp, rfl⟩ := List.mem_map.mp hl
      refine ⟨p.1 ++ ':' :: p.2, by simp [mkLFLine], ?_⟩
      intro c hc
      rcases List.mem_append.mp hc with hc | hc
      · have := isFieldChar_facts c ((hgood p hp).2.1 c hc)
        exact ⟨this.2.1, this.2.2.1⟩
      · rcases List.mem_cons.mp hc with rfl | hc
        · exact ⟨by decide, by decide⟩
        · exact (hgood p hp).2.2.1 c hc
    · rcases List.mem_singleton.mp hl with rfl
      exact ⟨[], rfl, by simp⟩
  have hmatch : ∀ l ∈ hs.map mkLFLine, headerREMatch l = true := by
    intro l hl
    obtain ⟨p, hp, rfl⟩ := List.mem_map.mp hl
    rw [show mkLFLine p = p.1 ++ ':' :: (p.2 ++ lf) from rfl]
    exact headerREMatch_mk p.1 (p.2 ++ lf) (hgood p hp).2.1
  simp only [read_message, read_line_ok startLine _ h0 h1,
    read_headers_loop_ok (hs.map mkRawLine) MAX_HEADERS [] rest hlen hline,
    List.nil_append, parse_email]
  rw [hcat, splitlines_cat _ hdecomp,
    show hs.map mkLFLine ++ [lf] = hs.map mkLFLine ++ lf :: [] from rfl,
    collectHeaders_sep (hs.map mkLFLine) [] hmatch]
  rw [show ((hs.map mkLFLine, [], []) :
      List Str × List Defect × List Str).1 = hs.map mkLFLine from rfl]
  rw [parse_headers_good hs
    (fun p hp => ⟨(hgood p hp).1, (hgood p hp).2.1, (hgood p hp).2.2.1⟩)]
  simp [catLines]

/-! Facts about the start-line split. -/

theorem takeWhile_run (p : Char → Bool) (l m : Str)
    (h : ∀ c ∈ l, p c = true) (hsp : p ' ' = false) :
    List.takeWhile p (l ++ ' ' :: m) = l := by
  rw [takeWhile_append_of_all l (' ' :: m) h]
  simp [List.takeWhile_cons, hsp]

theorem dropWhile_run (p : Char → Bool) (l m : Str)
    (h : ∀ c ∈ l, p c = true) (hsp : p ' ' = false) :
    List.dropWhile p (l ++ ' ' :: m) = ' ' :: m := by
  rw [dropWhile_append_of_all l (' ' :: m) h]
  simp [List.dropWhile_cons, hsp]

theorem dropWhile_cons_false (p : Char → Bool) (a : Char) (t : Str)
    (h : p a = false) : List.dropWhile p (a :: t) = a :: t := by
  simp [List.dropWhile_cons, h]

theorem pysplit2_three (w1 w2 r : Str)
    (h1 : w1 ≠ []) (hw1 : ∀ c ∈ w1, pyIsSpace c = false)
    (h2 : w2 ≠ []) (hw2 : ∀ c ∈ w2, pyIsSpace c = false)
    (h3 : r ≠ []) (hr : headIsSpace r = false) :
    pysplit2 (w1 ++ ' ' :: (w2 ++ ' ' :: r)) = [w1, w2, r] := by
  match w1, h1, w2, h2, r, h3 with
  | a :: t1, _, b :: t2, _, c :: t3, _ =>
    have ha : pyIsSpace a = false := hw1 a (by simp)
    have hb : pyIsSpace b = false := hw2 b (by simp)
    have hc : pyIsSpace c = false := hr
    have hsp : (!pyIsSpace ' ') = false := by decide
    have hw1' : ∀ x ∈ a :: t1, (!pyIsSpace x) = true := by
      intro x hx; simp [hw1 x hx]
    have hw2' : ∀ x ∈ b :: t2, (!pyIsSpace x) = true := by
      intro x hx; simp [hw2 x hx]
    have hd0 : ((a :: t1) ++ ' ' :: ((b :: t2) ++ ' ' :: (c :: t3))).dropWhile
        pyIsSpace = (a :: t1) ++ ' ' :: ((b :: t2) ++ ' ' :: (c :: t3)) := by
      rw [List.cons_append]
      exact dropWhile_cons_false pyIsSpace a _ ha
    have hie : (((a :: t1) ++ ' ' :: ((b :: t2) ++ ' ' :: (c :: t3)))).isEmpty
        = false := by simp
    have ht1 := takeWhile_run (fun x => !pyIsSpace x) (a :: t1)
      ((b :: t2) ++ ' ' :: (c :: t3)) hw1' hsp
    have hdr1 := dropWhile_run (fun x => !pyIsSpace x) (a :: t1)
      ((b :: t2) ++ ' ' :: (c :: t3)) hw1' hsp
    have hd1 : (' ' :: ((b :: t2) ++ ' ' :: (c :: t3))).dropWhile pyIsSpace
        = (b :: t2) ++ ' ' :: (c :: t3) := by
      rw [List.dropWhile_cons]
      simp only [show pyIsSpace ' ' = true from by decide, if_true,
        List.cons_append]
      exact dropWhile_cons_false pyIsSpace b _ hb
    have ht2 := takeWhile_run (fun x => !pyIsSpace x) (b :: t2) (c :: t3)
      hw2' hsp
    have hdr2 := dropWhile_run (fun x => !pyIsSpace x) (b :: t2) (c :: t3)
      hw2' hsp
    have hd2 : (' ' :: (c :: t3)).dropWhile pyIsSpace = c :: t3 := by
      rw [List.dropWhile_cons]
      simp only [show pyIsSpace ' ' = true from by decide, if_true]
      exact dropWhile_cons_false pyIsSpace c _ hc
    simp only [pysplit2, hd0, hie, Bool.false_eq_true, if_false, ht1, hdr1,
      hd1, ht2, hdr2, hd2]
    simp

theorem stripLast2_append_crlf (x : Str) : stripLast2 (x ++ crlf) = x := by
  unfold stripLast2
  rw [show (x ++ crlf).length - 2 = x.length by simp [crlf]]
  exact List.take_left _ _

/-- `read_message` on a start line immediately followed by the blank
terminator: the empty header block parses to a message with no headers. -/
theorem read_message_emptyHeaders (line : Str) (rest : List Str)
    (h1 : line.length ≤ MAX_LINE) (h2 : endsCRLF line = true) :
    read_message (line :: crlf :: rest) =
      .ok ((line, ⟨none, [], [], []⟩), rest) := by
  have h := read_message_good line [] rest h1 h2 (by simp) (by simp)
  simpa using h

/-! The claims. -/

/-- C4: `readLine` accepts a line of exactly 4096 bytes including the
terminator and fails with `LineTooLong` for any line of 4097 bytes or more;
the length check is applied before and regardless of the terminator check,
so an overlong line lacking CRLF fails with `LineTooLong`, not
`MissingTerminator`. -/
theorem readLine_lengthLimit (line : Str) (s : List Str) :
    (line.length = 4096 → endsCRLF line = true →
      read_line (line :: s) = .ok (line, s)) ∧
    (4097 ≤ line.length → read_line (line :: s) = .error .lineTooLong) := by
  constructor
  · intro h1 h2
    exact read_line_ok line s (by unfold MAX_LINE; omega) h2
  · intro h
    exact read_line_tooLong line s (by unfold MAX_LINE; omega)

theorem readLine_lengthLimit_witness :
    read_line [List.replicate 4094 'a' ++ crlf] =
      .ok (List.replicate 4094 'a' ++ crlf, []) ∧
    read_line [List.replicate 4097 'a'] = .error .lineTooLong := by
  constructor
  · exact (readLine_lengthLimit _ _).1
      (by rw [List.length_append, List.length_replicate]; decide)
      (endsCRLF_append _)
  · exact (readLine_lengthLimit _ _).2
      (by rw [List.length_replicate])

/-- C5: whenever the stream's line read yields at most 4096 bytes not ending
with the two-byte CRLF sequence (including the empty result at end of
stream and bare-LF lines), `readLine` fails with `MissingTerminator`; on
success it returns the line bytes with the CRLF terminator still
attached, exactly as read. -/
theorem readLine_terminator (line : Str) (rest s : List Str) :
    (line.length ≤ 4096 → endsCRLF line = false →
      read_line (line :: rest) = .error .missingTerminator) ∧
    read_line [] = .error .missingTerminator ∧
    (∀ l s', read_line s = .ok (l, s') → endsCRLF l = true ∧ s = l :: s') := by
  refine ⟨fun h1 h2 => read_line_missing line rest (by unfold MAX_LINE; omega) h2,
    rfl, ?_⟩
  intro l s' h
  match s with
  | [] => simp [read_line, show endsCRLF [] = false from rfl] at h
  | a :: t =>
    simp only [read_line, List.headD_cons, List.tail_cons] at h
    by_cases hl : a.length > MAX_LINE
    · rw [if_pos hl] at h
      simp at h
    · rw [if_neg hl] at h
      by_cases he : endsCRLF a = true
      · rw [if_pos he] at h
        simp only [Except.ok.injEq, Prod.mk.injEq] at h
        obtain ⟨rfl, rfl⟩ := h
        exact ⟨he, rfl⟩
      · rw [if_neg he] at h
        simp at h

theorem readLine_terminator_witness :
    read_line [str "a\n"] = .error .missingTerminator ∧
    read_line [] = .error .missingTerminator ∧
    (endsCRLF (str "ok\r\n") = true ∧
      [str "ok\r\n"] = str "ok\r\n" :: ([] : List Str)) := by
  refine ⟨(readLine_terminator (str "a\n") [] []).1 (by decide) (by decide),
    (readLine_terminator [] [] []).2.1, ?_⟩
  exact (readLine_terminator [] [] [str "ok\r\n"]).2.2 (str "ok\r\n") []
    (by decide)

/-- C1: the source's `for num in range(MAX_HEADERS)` loop must consume the
blank terminator line within the same 256-iteration budget as the header
lines, so a block of exactly 256 header lines followed by the blank
terminator raises "Too many headers" — only 255 header lines fit, although
`MAX_HEADERS = 256`. A block of 257 header lines (no terminator seen)
fails the same way. -/
theorem readMessage_maxHeaders_boundary :
    read_message (str "GET / HTTP/1.1\r\n" ::
        (List.replicate 256 (str "H: v\r\n") ++ [crlf])) =
      .error .tooManyHeaders ∧
    read_message (str "GET / HTTP/1.1\r\n" ::
        (List.replicate 255 (str "H: v\r\n") ++ [crlf])) =
      .ok ((str "GET / HTTP/1.1\r\n",
        { unixfrom := none,
          headers := List.replicate 255 (str "H", str "v"),
          defects := [], payload := [] }), []) ∧
    read_message (str "GET / HTTP/1.1\r\n" ::
        List.replicate 257 (str "H: v\r\n")) =
      .error .tooManyHeaders := by
  have hstart : ∀ s : List Str, read_line (str "GET / HTTP/1.1\r\n" :: s) =
      .ok (str "GET / HTTP/1.1\r\n", s) :=
    fun s => read_line_ok _ s (by decide) (by decide)
  have hall : ∀ n : Nat, ∀ l ∈ List.replicate n (str "H: v\r\n"),
      l.length ≤ MAX_LINE ∧ endsCRLF l = true ∧ l ≠ crlf := by
    intro n l hl
    rw [List.eq_of_mem_replicate hl]
    exact ⟨by decide, by decide, by decide⟩
  refine ⟨?_, ?_, ?_⟩
  · have hloop := read_headers_loop_exhaust
      (List.replicate 256 (str "H: v\r\n")) [] [crlf] (hall 256)
    rw [List.length_replicate] at hloop
    simp only [read_message, hstart, show MAX_HEADERS = 256 from rfl, hloop]
  · have h2 := read_message_good (str "GET / HTTP/1.1\r\n")
      (List.replicate 255 (str "H", str " v")) [] (by decide) (by decide)
      (by rw [List.length_replicate]) ?_
    · rw [List.map_replicate, List.map_replicate,
        show mkRawLine (str "H", str " v") = str "H: v\r\n" from rfl,
        show parsedPair (str "H", str " v") = (str "H", str "v") from rfl] at h2
      exact h2
    · intro p hp
      rw [List.eq_of_mem_replicate hp]
      exact ⟨by decide, by decide, by decide, by decide⟩
  · have hloop := read_headers_loop_exhaust
      (List.replicate 256 (str "H: v\r\n")) [] [str "H: v\r\n"] (hall 256)
    rw [List.length_replicate] at hloop
    rw [show (257 : Nat) = 256 + 1 from rfl, List.replicate_succ']
    simp only [read_message, hstart, show MAX_HEADERS = 256 from rfl, hloop]

/-- C8: for a request stream whose start line splits into three fields,
`readRequest` fails with `UnsupportedMethod` when the method is any verb
other than GET, and with `UnsupportedVersion` when the method is GET but
the version field is not exactly "HTTP/1.1". -/
theorem readRequest_methodVersion (line m t v : Str)
    (h1 : line.length ≤ 4096) (h2 : endsCRLF line = true)
    (hsplit : pysplit2 (stripLast2 line) = [m, t, v]) :
    (m ≠ str "GET" → read_request [line, crlf] = .error .unsupportedMethod) ∧
    (m = str "GET" → v ≠ str "HTTP/1.1" →
      read_request [line, crlf] = .error .unsupportedVersion) := by
  have hmsg := read_message_emptyHeaders line [] h1 h2
  constructor
  · intro hm
    simp only [read_request, hmsg, hsplit, if_pos hm]
  · intro hm hv
    subst hm
    simp only [read_request, hmsg, hsplit]
    rw [if_neg (by simp), if_pos hv]

theorem readRequest_methodVersion_witness :
    read_request [str "POST / HTTP/1.1\r\n", crlf] =
      .error .unsupportedMethod ∧
    read_request [str "GET / HTTP/1.0\r\n", crlf] =
      .error .unsupportedVersion := by
  constructor
  · exact (readRequest_methodVersion (str "POST / HTTP/1.1\r\n") (str "POST")
      (str "/") (str "HTTP/1.1") (by decide) (by decide) (by decide)).1
      (by decide)
  · exact (readRequest_methodVersion (str "GET / HTTP/1.0\r\n") (str "GET")
      (str "/") (str "HTTP/1.0") (by decide) (by decide) (by decide)).2
      rfl (by decide)

/-- C9: for a three-field HTTP/1.1 status line, `readResponse` converts the
status field with `int` and fails with `InvalidStatus` exactly when that
conversion fails; when the field parses as an integer the integer is
returned as is, with no further restriction on its value at this layer. -/
theorem readResponse_statusInt (line st r : Str)
    (h1 : line.length ≤ 4096) (h2 : endsCRLF line = true)
    (hsplit : pysplit2 (stripLast2 line) = [str "HTTP/1.1", st, r]) :
    (pyInt st = none → read_response [line, crlf] = .error .invalidStatus) ∧
    (∀ k : Int, pyInt st = some k →
      read_response [line, crlf] = .ok ((k, ⟨none, [], [], []⟩), [])) := by
  have hmsg := read_message_emptyHeaders line [] h1 h2
  constructor
  · intro hnone
    simp only [read_response, hmsg, hsplit]
    rw [if_neg (by simp)]
    simp only [hnone]
  · intro k hk
    simp only [read_response, hmsg, hsplit]
    rw [if_neg (by simp)]
    simp only [hk]

theorem readResponse_statusInt_witness :
    read_response [str "HTTP/1.1 abc x\r\n", crlf] = .error .invalidStatus ∧
    read_response [str "HTTP/1.1 404 Not Found\r\n", crlf] =
      .ok ((404, ⟨none, [], [], []⟩), []) := by
  constructor
  · exact (readResponse_statusInt (str "HTTP/1.1 abc x\r\n") (str "abc")
      (str "x") (by decide) (by decide) (by decide)).1 (by decide)
  · exact (readResponse_statusInt (str "HTTP/1.1 404 Not Found\r\n")
      (str "404") (str "Not Found") (by decide) (by decide) (by decide)).2
      404 (by decide)

/-- C10: when the start line, after stripping its CRLF terminator, splits
into fewer than three whitespace-delimited fields, `readRequest` and
`readResponse` fail with the tuple-unpacking `ValueError`
(`notEnoughValues`), which is outside the spec's error taxonomy; in
particular a status line with an empty reason phrase and a two-field
request line are rejected this way rather than with
`UnsupportedMethod`/`UnsupportedVersion` or as an empty-string reason. -/
theorem startLine_fewFields (line : Str)
    (h1 : line.length ≤ 4096) (h2 : endsCRLF line = true)
    (hsplit : (pysplit2 (stripLast2 line)).length < 3) :
    read_request [line, crlf] = .error .notEnoughValues ∧
    read_response [line, crlf] = .error .notEnoughValues := by
  have hmsg := read_message_emptyHeaders line [] h1 h2
  cases hsp : pysplit2 (stripLast2 line) with
  | nil =>
    exact ⟨by simp only [read_request, hmsg, hsp],
      by simp only [read_response, hmsg, hsp]⟩
  | cons a t1 =>
    cases t1 with
    | nil =>
      exact ⟨by simp only [read_request, hmsg, hsp],
        by simp only [read_response, hmsg, hsp]⟩
    | cons b t2 =>
      cases t2 with
      | nil =>
        exact ⟨by simp only [read_request, hmsg, hsp],
          by simp only [read_response, hmsg, hsp]⟩
      | cons c t3 =>
        rw [hsp] at hsplit
        simp only [List.length_cons] at hsplit
        omega

theorem startLine_fewFields_witness :
    read_response [str "HTTP/1.1 200 \r\n", crlf] = .error .notEnoughValues ∧
    read_request [str "GET /\r\n", crlf] = .error .notEnoughValues := by
  constructor
  · exact (startLine_fewFields (str "HTTP/1.1 200 \r\n") (by decide)
      (by decide) (by decide)).2
  · exact (startLine_fewFields (str "GET /\r\n") (by decide) (by decide)
      (by decide)).1

/-- C3 counterexample: on the spec's example block the parsed entries keep
the names as written, but the X-Test value comes back as "spaced " — the
trailing space survives, since the email parser only left-strips spaces and
tabs and right-strips CR/LF — so the claimed value "spaced" is not what the
code produces. -/
theorem headerValue_keepsTrailingSpace :
    read_message [str "GET / HTTP/1.1\r\n", str "Host: example.com\r\n",
        str "X-Test:  spaced \r\n", crlf] =
      .ok ((str "GET / HTTP/1.1\r\n",
        { unixfrom := none,
          headers := [(str "Host", str "example.com"),
                      (str "X-Test", str "spaced ")],
          defects := [], payload := [] }), []) ∧
    str "spaced " ≠ str "spaced" :=
  ⟨rfl, by decide⟩

/-- C3 (amended): for every well-formed header line the parsed entry keeps
the name with its original casing, and the value is everything after the
colon with leading spaces/tabs removed and the trailing CRLF removed —
trailing spaces and tabs are preserved, not trimmed. -/
theorem readMessage_header_value (n w : Str)
    (hn0 : n ≠ []) (hn : ∀ c ∈ n, isFieldChar c = true)
    (hw : ∀ c ∈ w, c ≠ '\r' ∧ c ≠ '\n')
    (hlen : n.length + w.length + 3 ≤ 4096) :
    read_message [str "GET / HTTP/1.1\r\n", n ++ ':' :: (w ++ crlf), crlf] =
      .ok ((str "GET / HTTP/1.1\r\n",
        { unixfrom := none, headers := [(n, pyLstripST w)], defects := [],
          payload := [] }), []) := by
  have h := read_message_good (str "GET / HTTP/1.1\r\n") [(n, w)] []
    (by decide) (by decide) (by simp)
    (by intro p hp; rw [List.mem_singleton.mp hp]; exact ⟨hn0, hn, hw, hlen⟩)
  simpa [mkRawLine, parsedPair] using h

theorem readMessage_header_value_witness :
    read_message [str "GET / HTTP/1.1\r\n",
        str "X-Test" ++ ':' :: (str "  spaced " ++ crlf), crlf] =
      .ok ((str "GET / HTTP/1.1\r\n",
        { unixfrom := none, headers := [(str "X-Test", str "spaced ")],
          defects := [], payload := [] }), []) :=
  readMessage_header_value (str "X-Test") (str "  spaced ") (by decide)
    (by decide) (by decide) (by decide)

/-- C2 counterexample: a header block whose non-blank line has no colon does
not make `read_message` fail — it succeeds, returning a header collection
(empty here), a recorded `MissingHeaderBodySeparator` defect, and the
offending line together with the rest of the block as the payload (with
CRLF turned into LF by the universal-newline text wrapper). -/
theorem readMessage_noColon_succeeds :
    read_message [str "GET / HTTP/1.1\r\n", str "NoColon\r\n", crlf] =
      .ok ((str "GET / HTTP/1.1\r\n",
        { unixfrom := none, headers := [],
          defects := [.missingHeaderBodySeparator],
          payload := str "NoColon\n\n" }), []) := rfl

/-- C2 (amended): a non-blank header line with no colon (and which is not a
continuation, unix-from, or newline line) does not abort parsing: the email
parser records a `MissingHeaderBodySeparator` defect, keeps the headers
parsed before the line, turns the line and everything after it — as
newline-translated text, CRLF having become LF — into the message payload,
and `read_message` succeeds. -/
theorem readMessage_noColon_payload (hs : List (Str × Str)) (bb : Str)
    (hcount : hs.length ≤ 254)
    (hgood : ∀ p ∈ hs, p.1 ≠ [] ∧ (∀ c ∈ p.1, isFieldChar c = true) ∧
      (∀ c ∈ p.2, c ≠ '\r' ∧ c ≠ '\n') ∧
      p.1.length + p.2.length + 3 ≤ 4096)
    (hb0 : bb ≠ []) (hbclean : ∀ c ∈ bb, c ≠ '\r' ∧ c ≠ '\n')
    (hbnc : ∀ c ∈ bb, c ≠ ':') (hbst : headIsST bb = false)
    (hbfrom : startsWithFrom (bb ++ lf) = false)
    (hblen : bb.length + 2 ≤ 4096) :
    ∃ m : Msg,
      read_message (str "GET / HTTP/1.1\r\n" ::
          (hs.map mkRawLine ++ [bb ++ crlf, crlf])) =
        .ok ((str "GET / HTTP/1.1\r\n", m), []) ∧
      m.headers = hs.map parsedPair ∧
      m.defects = [.missingHeaderBodySeparator] ∧
      m.payload = (bb ++ lf) ++ lf := by
  match bb, hb0 with
  | c0 :: bt, _ =>
    have hline : ∀ l ∈ hs.map mkRawLine ++ [(c0 :: bt) ++ crlf],
        l.length ≤ MAX_LINE ∧ endsCRLF l = true ∧ l ≠ crlf := by
      intro l hl
      rcases List.mem_append.mp hl with hl | hl
      · obtain ⟨p, hp, rfl⟩ := List.mem_map.mp hl
        refine ⟨?_, mkRawLine_endsCRLF p, mkRawLine_ne_crlf p⟩
        rw [mkRawLine_length]
        exact (hgood p hp).2.2.2
      · rcases List.mem_singleton.mp hl with rfl
        refine ⟨?_, endsCRLF_append _, ?_⟩
        · have h2 := hblen
          simp only [List.length_cons] at h2
          simp only [List.length_append, List.length_cons,
            show crlf.length = 2 from rfl, MAX_LINE]
          omega
        · intro h
          have := congrArg List.length h
          simp [crlf] at this
    have hlen2 : (hs.map mkRawLine ++ [(c0 :: bt) ++ crlf]).length
        < MAX_HEADERS := by
      simp only [List.length_append, List.length_map, List.length_singleton,
        MAX_HEADERS]
      omega
    have hstream : hs.map mkRawLine ++ [(c0 :: bt) ++ crlf, crlf] =
        (hs.map mkRawLine ++ [(c0 :: bt) ++ crlf]) ++ crlf :: [] := by simp
    have htail : translateNL (catLines [(c0 :: bt) ++ crlf, crlf]) =
        catLines [(c0 :: bt) ++ lf, lf] := by
      show translateNL (((c0 :: bt) ++ crlf) ++ (crlf ++ [])) = _
      rw [translateNL_line (c0 :: bt) _ hbclean,
        show translateNL (crlf ++ []) = lf ++ [] from rfl]
      rfl
    have hcat : translateNL (catLines
        ((hs.map mkRawLine ++ [(c0 :: bt) ++ crlf]) ++ [crlf])) =
        catLines (hs.map mkLFLine ++ [(c0 :: bt) ++ lf, lf]) := by
      rw [show (hs.map mkRawLine ++ [(c0 :: bt) ++ crlf]) ++ [crlf] =
          hs.map mkRawLine ++ [(c0 :: bt) ++ crlf, crlf] by simp,
        catLines_append, catLines_append]
      exact translateNL_cat_mk hs _ _
        (fun p hp => ⟨(hgood p hp).2.1, (hgood p hp).2.2.1⟩) htail
    have hdecomp : ∀ l ∈ hs.map mkLFLine ++ [(c0 :: bt) ++ lf, lf],
        ∃ body, l = body ++ lf ∧ ∀ c ∈ body, c ≠ '\r' ∧ c ≠ '\n' := by
      intro l hl
      rcases List.mem_append.mp hl with hl | hl
      · obtain ⟨p, hp, rfl⟩ := List.mem_map.mp hl
        refine ⟨p.1 ++ ':' :: p.2, by simp [mkLFLine], ?_⟩
        intro c hc
        rcases List.mem_append.mp hc with hc | hc
        · have := isFieldChar_facts c ((hgood p hp).2.1 c hc)
          exact ⟨this.2.1, this.2.2.1⟩
        · rcases List.mem_cons.mp hc with rfl | hc
          · exact ⟨by decide, by decide⟩
          · exact (hgood p hp).2.2.1 c hc
      · rcases List.mem_cons.mp hl with rfl | hl
        · exact ⟨c0 :: bt, rfl, hbclean⟩
        · rcases List.mem_singleton.mp hl with rfl
          exact ⟨[], rfl, by simp⟩
    have hmatch : ∀ l ∈ hs.map mkLFLine, headerREMatch l = true := by
      intro l hl
      obtain ⟨p, hp, rfl⟩ := List.mem_map.mp hl
      rw [show mkLFLine p = p.1 ++ ':' :: (p.2 ++ lf) from rfl]
      exact headerREMatch_mk p.1 (p.2 ++ lf) (hgood p hp).2.1
    have hfp : fieldPrefixColon ((c0 :: bt) ++ lf) = false := by
      apply fieldPrefixColon_none
      intro c hc
      rcases List.mem_append.mp hc with hc | hc
      · exact hbnc c hc
      · rcases List.mem_singleton.mp hc with rfl
        decide
    have hh : ((c0 = ' ' || c0 = '\t')) = false := by
      simpa [headIsST] using hbst
    have hb1 : headerREMatch ((c0 :: bt) ++ lf) = false := by
      rw [headerREMatch.eq_def, hfp, hbfrom]
      simp only [List.cons_append, Bool.false_or]
      exact hh
    have hb2 : startsWithNL ((c0 :: bt) ++ lf) = false := by
      rw [List.cons_append]
      exact startsWithNL_cons c0 _ (hbclean c0 (by simp)).1
        (hbclean c0 (by simp)).2
    refine ⟨⟨none, hs.map parsedPair, [.missingHeaderBodySeparator],
      ((c0 :: bt) ++ lf) ++ lf⟩, ?_, rfl, rfl, rfl⟩
    rw [hstream]
    simp only [read_message, read_line_ok (str "GET / HTTP/1.1\r\n") _
        (by decide) (by decide),
      read_headers_loop_ok (hs.map mkRawLine ++ [(c0 :: bt) ++ crlf])
        MAX_HEADERS [] [] hlen2 hline,
      List.nil_append, parse_email]
    rw [hcat, splitlines_cat _ hdecomp,
      show hs.map mkLFLine ++ [(c0 :: bt) ++ lf, lf] =
        hs.map mkLFLine ++ ((c0 :: bt) ++ lf) :: [lf] from rfl,
      collectHeaders_stop (hs.map mkLFLine) [lf] ((c0 :: bt) ++ lf)
        hmatch hb1 hb2]
    rw [show ((hs.map mkLFLine, [Defect.missingHeaderBodySeparator],
        ((c0 :: bt) ++ lf) :: [lf]) :
        List Str × List Defect × List Str).1 = hs.map mkLFLine from rfl]
    rw [parse_headers_good hs
      (fun p hp => ⟨(hgood p hp).1, (hgood p hp).2.1, (hgood p hp).2.2.1⟩)]
    simp [catLines]

theorem map_mkRawLine_space (hs : List (Str × Str)) :
    (hs.map (fun p => (p.1, ' ' :: p.2))).map mkRawLine =
      hs.map mkHeaderLine := by
  induction hs with
  | nil => rfl
  | cons p t ih => simp [mkRawLine, mkHeaderLine, ih]

theorem map_parsedPair_space (hs : List (Str × Str))
    (h : ∀ p ∈ hs, headIsST p.2 = false) :
    (hs.map (fun p => (p.1, ' ' :: p.2))).map parsedPair = hs := by
  induction hs with
  | nil => rfl
  | cons p t ih =>
    have h1 : pyLstripST (' ' :: p.2) = p.2 := by
      unfold pyLstripST
      rw [List.dropWhile_cons, if_pos (by decide)]
      exact pyLstripST_noST p.2 (h p (by simp))
    simp [parsedPair, h1, ih (fun x hx => h x (by simp [hx]))]

/-- C6: for every valid request stream "GET target HTTP/1.1" CRLF + headers
+ blank line (target nonempty without whitespace, all lines within limits),
`readRequest` returns exactly the target — byte for byte as transmitted,
with no percent-decoding — together with the headers in their original
arrival order, and consumes the whole stream. -/
theorem readRequest_valid (target : Str) (hs : List (Str × Str))
    (ht0 : target ≠ []) (ht1 : ∀ c ∈ target, pyIsSpace c = false)
    (ht2 : target.length ≤ 4081)
    (hcount : hs.length ≤ 255)
    (hgood : ∀ p ∈ hs, p.1 ≠ [] ∧ (∀ c ∈ p.1, isFieldChar c = true) ∧
      (∀ c ∈ p.2, c ≠ '\r' ∧ c ≠ '\n') ∧ headIsST p.2 = false ∧
      p.1.length + p.2.length + 4 ≤ 4096) :
    ∃ m : Msg, read_request (mkRequestStream target hs) =
        .ok ((target, m), []) ∧ m.headers = hs := by
  have hsl : requestLine target =
      (str "GET " ++ (target ++ str " HTTP/1.1")) ++ crlf := by
    rw [requestLine, show str " HTTP/1.1\r\n" = str " HTTP/1.1" ++ crlf
      from rfl]
    simp
  have h0 : (requestLine target).length ≤ MAX_LINE := by
    rw [hsl]
    simp only [List.length_append, show (str "GET ").length = 4 from rfl,
      show (str " HTTP/1.1").length = 9 from rfl,
      show crlf.length = 2 from rfl, MAX_LINE]
    omega
  have h1 : endsCRLF (requestLine target) = true := by
    rw [hsl]; exact endsCRLF_append _
  have hgood' : ∀ p ∈ hs.map (fun p => (p.1, ' ' :: p.2)),
      p.1 ≠ [] ∧ (∀ c ∈ p.1, isFieldChar c = true) ∧
      (∀ c ∈ p.2, c ≠ '\r' ∧ c ≠ '\n') ∧
      p.1.length + p.2.length + 3 ≤ MAX_LINE := by
    intro p hp
    obtain ⟨q, hq, rfl⟩ := List.mem_map.mp hp
    refine ⟨(hgood q hq).1, (hgood q hq).2.1, ?_, ?_⟩
    · intro c hc
      rcases List.mem_cons.mp hc with rfl | hc
      · exact ⟨by decide, by decide⟩
      · exact (hgood q hq).2.2.1 c hc
    · have := (hgood q hq).2.2.2.2
      simp only [List.length_cons, MAX_LINE]
      omega
  have hmsg := read_message_good (requestLine target)
    (hs.map (fun p => (p.1, ' ' :: p.2))) [] h0 h1
    (by simp only [List.length_map]; omega) hgood'
  rw [map_mkRawLine_space, map_parsedPair_space hs
    (fun p hp => (hgood p hp).2.2.2.1)] at hmsg
  have hassoc : str "GET " ++ (target ++ str " HTTP/1.1") =
      str "GET" ++ ' ' :: (target ++ ' ' :: str "HTTP/1.1") := by
    rw [show str "GET " = str "GET" ++ [' '] from rfl,
      show str " HTTP/1.1" = ' ' :: str "HTTP/1.1" from rfl]
    simp
  refine ⟨⟨none, hs, [], []⟩, ?_, rfl⟩
  show read_request (requestLine target :: (hs.map mkHeaderLine ++ [crlf])) =
    .ok ((target, ⟨none, hs, [], []⟩), [])
  simp only [read_request, hmsg]
  rw [hsl, stripLast2_append_crlf, hassoc,
    pysplit2_three (str "GET") target (str "HTTP/1.1") (by decide)
      (by decide) ht0 ht1 (by decide) (by decide)]
  simp

theorem readRequest_valid_witness :
    ∃ m : Msg, read_request (mkRequestStream (str "/chat%20x")
        [(str "Host", str "server.example.com"),
         (str "Upgrade", str "websocket")]) =
      .ok ((str "/chat%20x", m), []) ∧
      m.headers = [(str "Host", str "server.example.com"),
                   (str "Upgrade", str "websocket")] :=
  readRequest_valid (str "/chat%20x")
    [(str "Host", str "server.example.com"),
     (str "Upgrade", str "websocket")]
    (by decide) (by decide) (by decide) (by decide) (by decide)

/-- C7: for every valid response stream "HTTP/1.1 status reason" CRLF +
headers + blank line with a status accepted by `int`, `readResponse`
returns the integer status and the headers; the bounded split keeps a
multi-word reason phrase whole as the third field instead of truncating it
at the first space, so such status lines parse successfully. -/
theorem readResponse_valid (status reason : Str) (hs : List (Str × Str))
    (k : Int)
    (hst0 : status ≠ []) (hst1 : ∀ c ∈ status, pyIsSpace c = false)
    (hk : pyInt status = some k)
    (hr0 : reason ≠ []) (hr1 : headIsSpace reason = false)
    (hr2 : ∀ c ∈ reason, c ≠ '\r' ∧ c ≠ '\n')
    (hlen : status.length + reason.length + 12 ≤ 4096)
    (hcount : hs.length ≤ 255)
    (hgood : ∀ p ∈ hs, p.1 ≠ [] ∧ (∀ c ∈ p.1, isFieldChar c = true) ∧
      (∀ c ∈ p.2, c ≠ '\r' ∧ c ≠ '\n') ∧ headIsST p.2 = false ∧
      p.1.length + p.2.length + 4 ≤ 4096) :
    pysplit2 (stripLast2 (responseLine status reason)) =
      [str "HTTP/1.1", status, reason] ∧
    ∃ m : Msg, read_response (mkResponseStream status reason hs) =
        .ok ((k, m), []) ∧ m.headers = hs := by
  have hsl : responseLine status reason =
      (str "HTTP/1.1 " ++ (status ++ ' ' :: reason)) ++ crlf := by
    rw [responseLine]
    simp
  have hassoc : str "HTTP/1.1 " ++ (status ++ ' ' :: reason) =
      str "HTTP/1.1" ++ ' ' :: (status ++ ' ' :: reason) := by
    rw [show str "HTTP/1.1 " = str "HTTP/1.1" ++ [' '] from rfl]
    simp
  have hsplit : pysplit2 (stripLast2 (responseLine status reason)) =
      [str "HTTP/1.1", status, reason] := by
    rw [hsl, stripLast2_append_crlf, hassoc,
      pysplit2_three (str "HTTP/1.1") status reason (by decide) (by decide)
        hst0 hst1 hr0 hr1]
  refine ⟨hsplit, ?_⟩
  have h0 : (responseLine status reason).length ≤ MAX_LINE := by
    rw [hsl]
    simp only [List.length_append, List.length_cons,
      show (str "HTTP/1.1 ").length = 9 from rfl,
      show crlf.length = 2 from rfl, MAX_LINE]
    omega
  have h1 : endsCRLF (responseLine status reason) = true := by
    rw [hsl]; exact endsCRLF_append _
  have hgood' : ∀ p ∈ hs.map (fun p => (p.1, ' ' :: p.2)),
      p.1 ≠ [] ∧ (∀ c ∈ p.1, isFieldChar c = true) ∧
      (∀ c ∈ p.2, c ≠ '\r' ∧ c ≠ '\n') ∧
      p.1.length + p.2.length + 3 ≤ MAX_LINE := by
    intro p hp
    obtain ⟨q, hq, rfl⟩ := List.mem_map.mp hp
    refine ⟨(hgood q hq).1, (hgood q hq).2.1, ?_, ?_⟩
    · intro c hc
      rcases List.mem_cons.mp hc with rfl | hc
      · exact ⟨by decide, by decide⟩
      · exact (hgood q hq).2.2.1 c hc
    · have := (hgood q hq).2.2.2.2
      simp only [List.length_cons, MAX_LINE]
      omega
  have hmsg := read_message_good (responseLine status reason)
    (hs.map (fun p => (p.1, ' ' :: p.2))) [] h0 h1
    (by simp only [List.length_map]; omega) hgood'
  rw [map_mkRawLine_space, map_parsedPair_space hs
    (fun p hp => (hgood p hp).2.2.2.1)] at hmsg
  refine ⟨⟨none, hs, [], []⟩, ?_, rfl⟩
  show read_response (responseLine status reason ::
      (hs.map mkHeaderLine ++ [crlf])) =
    .ok ((k, ⟨none, hs, [], []⟩), [])
  simp only [read_response, hmsg, hsplit]
  rw [if_neg (by simp)]
  simp only [hk]

theorem readResponse_valid_witness :
    pysplit2 (stripLast2 (responseLine (str "101")
        (str "Switching Protocols"))) =
      [str "HTTP/1.1", str "101", str "Switching Protocols"] ∧
    ∃ m : Msg, read_response (mkResponseStream (str "101")
        (str "Switching Protocols") [(str "Upgrade", str "websocket")]) =
      .ok ((101, m), []) ∧
      m.headers = [(str "Upgrade", str "websocket")] :=
  readResponse_valid (str "101") (str "Switching Protocols")
    [(str "Upgrade", str "websocket")] 101 (by decide) (by decide)
    (by decide) (by decide) (by decide) (by decide) (by decide) (by decide)
    (by decide)

theorem readMessage_noColon_payload_witness :
    ∃ m : Msg,
      read_message (str "GET / HTTP/1.1\r\n" ::
          ([(str "Host", str " x")].map mkRawLine ++
            [str "Bad Header" ++ crlf, crlf])) =
        .ok ((str "GET / HTTP/1.1\r\n", m), []) ∧
      m.headers = [(str "Host", str " x")].map parsedPair ∧
      m.defects = [.missingHeaderBodySeparator] ∧
      m.payload = (str "Bad Header" ++ lf) ++ lf :=
  readMessage_noColon_payload [(str "Host", str " x")] (str "Bad Header")
    (by decide) (by decide) (by decide) (by decide) (by decide) (by decide)
    (by decide) (by decide)

end WSHttp
